import Mathlib

/-!
Verification of the trading-system core (matching engine, PnL calculator,
reconciler) against its natural-language specification.

The Python source is shallowly embedded: every stateful class becomes a
structure with explicit state passing, Python floats become exact rationals
(all claims under scrutiny involve only exact decimal arithmetic), Python
ints become Lean Int/Nat, and the two CPython heapq operations used by the
order book (heappush, heappop) are translated instruction by instruction.
The sift loops of heapq are written with an explicit fuel argument so that
all definitions are structurally recursive and computable by the kernel;
the fuel supplied at each call site strictly exceeds the number of loop
iterations the CPython loop can perform (each sift iteration strictly
decreases, respectively increases, the cursor position, which is bounded
by the heap length), so the fuel-exhaustion branch is unreachable and the
functions agree with the CPython loops on every input.
-/

namespace TradingSim

/-- Membership from an in-bounds getD read. -/
theorem getD_mem {α : Type} {l : List α} {i : Nat} (h : i < l.length) (d : α) :
    l.getD i d ∈ l := by
  have : l.getD i d = l[i] := by
    simp [List.getD_eq_getElem?_getD, List.getElem?_eq_getElem h]
  rw [this]
  exact List.getElem_mem h

/-- A predicate true on a list and on the written value is true on the updated list. -/
theorem mem_set_pred {α : Type} {P : α → Prop} {l : List α} {i : Nat} {v x : α}
    (hl : ∀ y ∈ l, P y) (hv : P v) (hx : x ∈ l.set i v) : P x := by
  rcases List.mem_or_eq_of_mem_set hx with h | h
  · exact hl x h
  · exact h ▸ hv

section Heapq

variable {α : Type} [Inhabited α] (lt : α → α → Bool)

/-- CPython heapq._siftdown loop body.  Source:
    while pos > startpos:
      parentpos = (pos - 1) >> 1; parent = heap[parentpos]
      if newitem < parent: heap[pos] = parent; pos = parentpos; continue
      break
    heap[pos] = newitem
    The fuel bounds the number of iterations; pos strictly decreases each
    iteration, so fuel = pos suffices and exhaustion is unreachable. -/
def siftdownLoop (startpos : Nat) (newitem : α) : Nat → List α → Nat → List α
  | 0, heap, pos => heap.set pos newitem
  | fuel + 1, heap, pos =>
    if startpos < pos then
      let parentpos := (pos - 1) / 2
      let parent := heap.getD parentpos default
      if lt newitem parent then
        siftdownLoop startpos newitem fuel (heap.set pos parent) parentpos
      else heap.set pos newitem
    else heap.set pos newitem

/-- CPython heapq._siftdown(heap, startpos, pos): newitem = heap[pos], then the loop. -/
def siftdown (startpos : Nat) (heap : List α) (pos : Nat) : List α :=
  siftdownLoop lt startpos (heap.getD pos default) pos heap pos

/-- CPython heapq.heappush: heap.append(item); _siftdown(heap, 0, len(heap)-1). -/
def heappush (heap : List α) (item : α) : List α :=
  siftdown lt 0 (heap ++ [item]) heap.length

/-- CPython heapq._siftup loop body.  Source:
    while childpos < endpos:
      rightpos = childpos + 1
      if rightpos < endpos and not heap[childpos] < heap[rightpos]: childpos = rightpos
      heap[pos] = heap[childpos]; pos = childpos; childpos = 2*pos + 1
    heap[pos] = newitem
    _siftdown(heap, startpos, pos)
    pos strictly increases and stays below endpos, so fuel = endpos suffices. -/
def siftupLoop (endpos startpos : Nat) (newitem : α) : Nat → List α → Nat → List α
  | 0, heap, pos => siftdownLoop lt startpos newitem pos (heap.set pos newitem) pos
  | fuel + 1, heap, pos =>
    let childpos := 2 * pos + 1
    if childpos < endpos then
      let rightpos := childpos + 1
      let childpos :=
        if rightpos < endpos &&
            !(lt (heap.getD childpos default) (heap.getD rightpos default)) then
          rightpos
        else childpos
      siftupLoop endpos startpos newitem fuel
        (heap.set pos (heap.getD childpos default)) childpos
    else
      siftdownLoop lt startpos newitem pos (heap.set pos newitem) pos

/-- CPython heapq._siftup(heap, pos): endpos = len(heap); startpos = pos;
    newitem = heap[pos]; then the loop. -/
def siftup (heap : List α) (pos : Nat) : List α :=
  siftupLoop lt heap.length pos (heap.getD pos default) heap.length heap pos

/-- CPython heapq.heappop: lastelt = heap.pop();
    if heap: returnitem = heap[0]; heap[0] = lastelt; _siftup(heap, 0); return returnitem
    return lastelt.
    (Callers in the embedded source only pop from non-empty heaps.) -/
def heappop (heap : List α) : α × List α :=
  let lastelt := heap.getLast?.getD default
  let rest := heap.dropLast
  if rest.isEmpty then (lastelt, rest)
  else (rest.getD 0 default, siftup lt (rest.set 0 lastelt) 0)

theorem siftdownLoop_length (startpos : Nat) (newitem : α) :
    ∀ fuel heap pos, (siftdownLoop lt startpos newitem fuel heap pos).length = heap.length := by
  intro fuel
  induction fuel with
  | zero => intro heap pos; simp [siftdownLoop]
  | succ n ih =>
    intro heap pos
    simp only [siftdownLoop]
    split
    · split
      · rw [ih]; simp
      · simp
    · simp

theorem siftdownLoop_mem (startpos : Nat) (newitem : α) {P : α → Prop} (hnew : P newitem) :
    ∀ fuel heap pos, pos < heap.length → (∀ x ∈ heap, P x) →
      ∀ x ∈ siftdownLoop lt startpos newitem fuel heap pos, P x := by
  intro fuel
  induction fuel with
  | zero =>
    intro heap pos _ hheap x hx
    exact mem_set_pred hheap hnew hx
  | succ n ih =>
    intro heap pos hpos hheap x hx
    simp only [siftdownLoop] at hx
    split at hx
    · rename_i hgt
      split at hx
      · have hpp : (pos - 1) / 2 < heap.length :=
          lt_of_le_of_lt (Nat.le_trans (Nat.div_le_self _ _) (Nat.sub_le _ _)) hpos
        have hparent : P (heap.getD ((pos - 1) / 2) default) := hheap _ (getD_mem hpp _)
        refine ih (heap.set pos (heap.getD ((pos - 1) / 2) default)) ((pos - 1) / 2) ?_ ?_ x hx
        · simpa using hpp
        · intro y hy; exact mem_set_pred hheap hparent hy
      · exact mem_set_pred hheap hnew hx
    · exact mem_set_pred hheap hnew hx

theorem siftdown_length (startpos : Nat) (heap : List α) (pos : Nat) :
    (siftdown lt startpos heap pos).length = heap.length :=
  siftdownLoop_length lt startpos _ pos heap pos

theorem siftdown_mem (startpos : Nat) {heap : List α} {pos : Nat} {P : α → Prop}
    (hpos : pos < heap.length) (hheap : ∀ x ∈ heap, P x) :
    ∀ x ∈ siftdown lt startpos heap pos, P x :=
  siftdownLoop_mem lt startpos _ (hheap _ (getD_mem hpos _)) pos heap pos hpos hheap

theorem heappush_length (heap : List α) (item : α) :
    (heappush lt heap item).length = heap.length + 1 := by
  unfold heappush
  rw [siftdown_length]
  simp

theorem heappush_mem {heap : List α} {item : α} {P : α → Prop}
    (hheap : ∀ x ∈ heap, P x) (hitem : P item) :
    ∀ x ∈ heappush lt heap item, P x := by
  unfold heappush
  refine siftdown_mem lt 0 (by simp) ?_
  intro y hy
  rcases List.mem_append.mp hy with h | h
  · exact hheap y h
  · simp at h; exact h ▸ hitem

theorem siftupLoop_length (endpos startpos : Nat) (newitem : α) :
    ∀ fuel heap pos, (siftupLoop lt endpos startpos newitem fuel heap pos).length = heap.length := by
  intro fuel
  induction fuel with
  | zero => intro heap pos; rw [siftupLoop, siftdownLoop_length]; simp
  | succ n ih =>
    intro heap pos
    simp only [siftupLoop]
    split
    · rw [ih]; simp
    · rw [siftdownLoop_length]; simp

theorem siftupLoop_mem (endpos startpos : Nat) (newitem : α) {P : α → Prop} (hnew : P newitem) :
    ∀ fuel heap pos, endpos ≤ heap.length → pos < heap.length → (∀ x ∈ heap, P x) →
      ∀ x ∈ siftupLoop lt endpos startpos newitem fuel heap pos, P x := by
  intro fuel
  induction fuel with
  | zero =>
    intro heap pos _ hpos hheap x hx
    rw [siftupLoop] at hx
    refine siftdownLoop_mem lt startpos newitem hnew pos _ pos ?_ ?_ x hx
    · simpa using hpos
    · intro y hy; exact mem_set_pred hheap hnew hy
  | succ n ih =>
    intro heap pos hend hpos hheap x hx
    simp only [siftupLoop] at hx
    split at hx
    · rename_i hchild
      set cp := if (2 * pos + 1 + 1 < endpos &&
          !(lt (heap.getD (2 * pos + 1) default) (heap.getD (2 * pos + 1 + 1) default))) then
          2 * pos + 1 + 1 else 2 * pos + 1 with hcp
      have hcplt : cp < endpos := by
        rw [hcp]; split
        · rename_i hb
          exact (Bool.and_eq_true _ _ ▸ hb).1 |> of_decide_eq_true
        · exact hchild
      have hcpheap : cp < heap.length := lt_of_lt_of_le hcplt hend
      have hval : P (heap.getD cp default) := hheap _ (getD_mem hcpheap _)
      refine ih (heap.set pos (heap.getD cp default)) cp ?_ ?_ ?_ x hx
      · simpa using hend
      · simpa using hcpheap
      · intro y hy; exact mem_set_pred hheap hval hy
    · refine siftdownLoop_mem lt startpos newitem hnew pos _ pos ?_ ?_ x hx
      · simpa using hpos
      · intro y hy; exact mem_set_pred hheap hnew hy

theorem siftup_length (heap : List α) (pos : Nat) :
    (siftup lt heap pos).length = heap.length :=
  siftupLoop_length lt heap.length pos _ heap.length heap pos

theorem siftup_mem {heap : List α} {pos : Nat} {P : α → Prop}
    (hpos : pos < heap.length) (hheap : ∀ x ∈ heap, P x) :
    ∀ x ∈ siftup lt heap pos, P x :=
  siftupLoop_mem lt heap.length pos _ (hheap _ (getD_mem hpos _)) heap.length heap pos
    (le_refl _) hpos hheap

theorem heappop_length (heap : List α) :
    (heappop lt heap).2.length = heap.length - 1 := by
  unfold heappop
  dsimp only
  split
  · simp
  · rw [siftup_length]
    simp

theorem heappop_mem_tail {a : α} {t : List α} {P : α → Prop}
    (ht : ∀ x ∈ t, P x) : ∀ x ∈ (heappop lt (a :: t)).2, P x := by
  unfold heappop
  cases t with
  | nil => simp
  | cons b t2 =>
    simp only [List.getLast?_cons_cons, List.dropLast_cons₂, List.isEmpty_cons]
    have hlast : (b :: t2).getLast?.getD default ∈ b :: t2 := by
      rw [List.getLast?_eq_getLast _ (by simp)]
      exact List.getLast_mem _
    have hrest : ∀ x ∈ (a :: (b :: t2).dropLast).set 0 ((b :: t2).getLast?.getD default), P x := by
      rw [List.set_cons_zero]
      intro x hx
      rcases List.mem_cons.mp hx with h | h
      · exact h ▸ ht _ hlast
      · exact ht x (List.dropLast_sublist (b :: t2) |>.subset h)
    intro x hx
    refine siftup_mem lt ?_ hrest x hx
    simp

end Heapq

/-!
Embedding of src/matching_engine.py.

The source reads the wall clock with time.time() (once for the order
timestamp, once per trade, and twice for the latency measurement); those
environment-supplied instants are passed as explicit parameters here.
-/

inductive OrderSide where
  | BUY
  | SELL
deriving DecidableEq

inductive OrderStatus where
  | PENDING
  | PARTIAL
  | FILLED
  | CANCELLED
deriving DecidableEq

/-- OrderSide(side): the Python enum constructor accepts exactly the values
    "BUY" and "SELL" and raises ValueError otherwise. -/
def sideOfString (s : String) : Option OrderSide :=
  if s = "BUY" then some OrderSide.BUY
  else if s = "SELL" then some OrderSide.SELL
  else none

structure Order where
  order_id : Nat
  user_id : Nat
  symbol : String
  side : OrderSide
  price : Rat
  quantity : Int
  timestamp : Rat
  status : OrderStatus := OrderStatus.PENDING
  filled_quantity : Int := 0
deriving DecidableEq

instance : Inhabited Order :=
  ⟨{ order_id := 0, user_id := 0, symbol := "", side := OrderSide.BUY,
     price := 0, quantity := 0, timestamp := 0 }⟩

def Order.remaining_quantity (o : Order) : Int :=
  o.quantity - o.filled_quantity

/-- Order.__lt__: buy orders sort by descending price, sell orders by
    ascending price; equal prices fall back to ascending timestamp. -/
def Order.heapLt (a b : Order) : Bool :=
  match a.side with
  | OrderSide.BUY =>
    if a.price ≠ b.price then decide (a.price > b.price)
    else decide (a.timestamp < b.timestamp)
  | OrderSide.SELL =>
    if a.price ≠ b.price then decide (a.price < b.price)
    else decide (a.timestamp < b.timestamp)

structure Trade where
  trade_id : Nat
  buy_order_id : Nat
  sell_order_id : Nat
  symbol : String
  price : Rat
  quantity : Int
  timestamp : Rat
deriving DecidableEq

structure OrderBook where
  symbol : String
  buy_orders : List Order := []
  sell_orders : List Order := []
  order_map : List (Nat × Order) := []
deriving DecidableEq

/-- OrderBook.add_order: push onto the side heap and index by order_id. -/
def OrderBook.addOrder (b : OrderBook) (o : Order) : OrderBook :=
  let b :=
    match o.side with
    | OrderSide.BUY => { b with buy_orders := heappush Order.heapLt b.buy_orders o }
    | OrderSide.SELL => { b with sell_orders := heappush Order.heapLt b.sell_orders o }
  { b with order_map := b.order_map ++ [(o.order_id, o)] }

/-- OrderBook.can_match: False when either side is empty, otherwise compare
    the head prices (buy price >= sell price). -/
def OrderBook.canMatch (b : OrderBook) : Bool :=
  match b.buy_orders, b.sell_orders with
  | [], _ => false
  | _, [] => false
  | best_buy :: _, best_sell :: _ => decide (best_buy.price ≥ best_sell.price)

def OrderBook.getBestBuy (b : OrderBook) : Option Order :=
  b.buy_orders.head?

def OrderBook.getBestSell (b : OrderBook) : Option Order :=
  b.sell_orders.head?

/-- One while-iteration set of OrderBook.remove_filled_orders for one heap:
    while heap and heap[0].remaining_quantity() == 0: heappop(heap).
    Each pop shortens the heap by one, so fuel = length suffices. -/
def popZerosLoop : Nat → List Order → List Order
  | 0, h => h
  | fuel + 1, h =>
    match h with
    | [] => h
    | o :: _ =>
      if o.remaining_quantity = 0 then popZerosLoop fuel (heappop Order.heapLt h).2
      else h

def popZeros (h : List Order) : List Order :=
  popZerosLoop h.length h

/-- OrderBook.remove_filled_orders: drop zero-remaining orders from both tops. -/
def OrderBook.removeFilledOrders (b : OrderBook) : OrderBook :=
  { b with buy_orders := popZeros b.buy_orders, sell_orders := popZeros b.sell_orders }

/-- The filled-quantity increment and status update applied to each matched
    head order (lines 221-233 of the source, for one order). -/
def applyFill (o : Order) (tq : Int) : Order :=
  let o := { o with filled_quantity := o.filled_quantity + tq }
  if o.remaining_quantity = 0 then { o with status := OrderStatus.FILLED }
  else if 0 < o.filled_quantity then { o with status := OrderStatus.PARTIAL }
  else o

/-- In the source the heaps and order_map alias the same mutable Order
    records, so a fill is visible through the index as well; the embedding
    updates the indexed copy explicitly. -/
def updMap (m : List (Nat × Order)) (k : Nat) (v : Order) : List (Nat × Order) :=
  m.map fun p => if p.1 = k then (k, v) else p

/-- MatchingEngine._match_orders: the matching loop.  State threaded
    explicitly: the book, the engine trade-id counter and the emitted
    trades.  Each iteration pops at least one order (the side achieving the
    minimum reaches zero remaining and is removed), so the combined heap
    length bounds the iteration count and is used as fuel. -/
def matchLoop (tsTrade : Rat) : Nat → OrderBook → Nat → List Trade → OrderBook × List Trade × Nat
  | 0, b, ntid, trades => (b, trades, ntid)
  | fuel + 1, b, ntid, trades =>
    if b.canMatch then
      match b.buy_orders, b.sell_orders with
      | buy_order :: bt, sell_order :: st =>
        let trade_quantity := min buy_order.remaining_quantity sell_order.remaining_quantity
        -- Trade executes at the price of the order that arrived first
        let trade_price :=
          if buy_order.timestamp < sell_order.timestamp then buy_order.price
          else sell_order.price
        let trade : Trade :=
          { trade_id := ntid, buy_order_id := buy_order.order_id,
            sell_order_id := sell_order.order_id, symbol := b.symbol,
            price := trade_price, quantity := trade_quantity, timestamp := tsTrade }
        let buy2 := applyFill buy_order trade_quantity
        let sell2 := applyFill sell_order trade_quantity
        let b := { b with buy_orders := buy2 :: bt, sell_orders := sell2 :: st,
                          order_map := updMap (updMap b.order_map buy_order.order_id buy2)
                                         sell_order.order_id sell2 }
        let b := b.removeFilledOrders
        matchLoop tsTrade fuel b (ntid + 1) (trades ++ [trade])
      | _, _ => (b, trades, ntid)  -- source: break; unreachable since can_match checks both sides
    else (b, trades, ntid)

/-- MatchingEngine._match_orders entry point: run the matching loop to
    completion.  The combined heap length of the book bounds the number of
    iterations (each iteration removes at least one order), so it serves as
    the fuel for the loop. -/
def matchOrders (tsTrade : Rat) (b : OrderBook) (ntid : Nat) : OrderBook × List Trade × Nat :=
  matchLoop tsTrade (b.buy_orders.length + b.sell_orders.length) b ntid []

structure MatchingEngine where
  order_books : List (String × OrderBook) := []
  trades : List Trade := []
  next_order_id : Nat := 1
  next_trade_id : Nat := 1
  total_latency : Rat := 0
  order_count : Nat := 0
deriving DecidableEq

def MatchingEngine.book (e : MatchingEngine) (sym : String) : Option OrderBook :=
  (e.order_books.find? (fun p => p.1 == sym)).map (·.2)

/-- Replace the stored book for a symbol, inserting it if absent (the source
    mutates the book object held in the dict; get_or_create inserts it
    first, so writing back the final book is equivalent). -/
def setBook (books : List (String × OrderBook)) (sym : String) (b : OrderBook) :
    List (String × OrderBook) :=
  if books.any (fun p => p.1 == sym) then
    books.map fun p => if p.1 == sym then (sym, b) else p
  else books ++ [(sym, b)]

/-- MatchingEngine.submit_order.  time.time() values (order timestamp,
    per-trade timestamp, measured latency in ms) are explicit inputs.  The
    OrderSide(side) call raises ValueError before any state change, modelled
    by returning the engine unchanged alongside the error. -/
def MatchingEngine.submitOrder (e : MatchingEngine) (user_id : Nat) (symbol : String)
    (side : String) (price : Rat) (quantity : Int) (ts tsTrade latency : Rat) :
    Except String Order × MatchingEngine :=
  match sideOfString side with
  | none => (Except.error (side ++ " is not a valid OrderSide"), e)
  | some sd =>
    let order : Order :=
      { order_id := e.next_order_id, user_id := user_id, symbol := symbol,
        side := sd, price := price, quantity := quantity, timestamp := ts }
    let e1 := { e with next_order_id := e.next_order_id + 1 }
    let ob := ((e1.book symbol).getD { symbol := symbol }).addOrder order
    let res := matchOrders tsTrade ob e1.next_trade_id
    (Except.ok order,
     { e1 with order_books := setBook e1.order_books symbol res.1,
               trades := e1.trades ++ res.2.1,
               next_trade_id := res.2.2,
               total_latency := e1.total_latency + latency,
               order_count := e1.order_count + 1 })

structure SubmitReq where
  user_id : Nat
  symbol : String
  side : String
  price : Rat
  quantity : Int
  ts : Rat
  tsTrade : Rat
  latency : Rat
deriving DecidableEq

def runEngine (reqs : List SubmitReq) : MatchingEngine :=
  reqs.foldl (fun e r => (e.submitOrder r.user_id r.symbol r.side r.price r.quantity
    r.ts r.tsTrade r.latency).2) {}

/-- Python sorted(): an ascending stable sort with respect to __lt__. -/
def insertAsc (x : Order) : List Order → List Order
  | [] => [x]
  | y :: ys => if Order.heapLt y x then y :: insertAsc x ys else x :: y :: ys

def pySorted : List Order → List Order
  | [] => []
  | x :: xs => insertAsc x (pySorted xs)

/-- Python sorted(l, reverse=True): CPython reverses the list before and
    after an ascending stable sort. -/
def pySortedRev (l : List Order) : List Order :=
  (pySorted l.reverse).reverse

structure SnapshotLevel where
  order_id : Nat
  price : Rat
  quantity : Int
deriving DecidableEq

structure Snapshot where
  symbol : Option String
  buy_orders : List SnapshotLevel
  sell_orders : List SnapshotLevel
  spread : Option Rat
deriving DecidableEq

def toLevel (o : Order) : SnapshotLevel :=
  { order_id := o.order_id, price := o.price, quantity := o.remaining_quantity }

/-- MatchingEngine.get_order_book_snapshot.  For an unknown symbol the source
    returns a dict holding only empty buy and sell lists; the absent symbol
    and spread keys are modelled as none.  For a known symbol the source
    slices the first 10 sorted entries and then filters positive remaining
    quantity, and the spread is computed from the heads of the two lists. -/
def MatchingEngine.getOrderBookSnapshot (e : MatchingEngine) (symbol : String) : Snapshot :=
  match e.book symbol with
  | none => { symbol := none, buy_orders := [], sell_orders := [], spread := none }
  | some ob =>
    let buy_orders :=
      (((pySortedRev ob.buy_orders).take 10).filter
        (fun o => 0 < o.remaining_quantity)).map toLevel
    let sell_orders :=
      (((pySorted ob.sell_orders).take 10).filter
        (fun o => 0 < o.remaining_quantity)).map toLevel
    { symbol := some symbol, buy_orders := buy_orders, sell_orders := sell_orders,
      spread := some (match buy_orders, sell_orders with
                      | b :: _, s :: _ => s.price - b.price
                      | _, _ => 0) }

/-!  Lemmas about the matching loop. -/

def allPos (l : List Order) : Prop := ∀ o ∈ l, 0 < o.remaining_quantity

def bookMeasure (b : OrderBook) : Nat :=
  b.buy_orders.length + b.sell_orders.length

theorem applyFill_remaining (o : Order) (tq : Int) :
    (applyFill o tq).remaining_quantity = o.remaining_quantity - tq := by
  simp only [applyFill, Order.remaining_quantity]
  split
  · dsimp only; omega
  · split <;> (dsimp only; omega)

theorem applyFill_quantity (o : Order) (tq : Int) :
    (applyFill o tq).quantity = o.quantity := by
  simp only [applyFill]
  split
  · rfl
  · split <;> rfl

theorem popZerosLoop_length_le : ∀ fuel h, (popZerosLoop fuel h).length ≤ h.length := by
  intro fuel
  induction fuel with
  | zero => intro h; exact le_refl _
  | succ n ih =>
    intro h
    match h with
    | [] => exact le_refl _
    | o :: t =>
      simp only [popZerosLoop]
      split
      · calc (popZerosLoop n (heappop Order.heapLt (o :: t)).2).length
            ≤ (heappop Order.heapLt (o :: t)).2.length := ih _
          _ ≤ (o :: t).length := by rw [heappop_length]; simp
      · exact le_refl _

theorem popZeros_length_le (h : List Order) : (popZeros h).length ≤ h.length :=
  popZerosLoop_length_le h.length h

theorem popZeros_cons_zero_length {o : Order} {t : List Order}
    (h : o.remaining_quantity = 0) :
    (popZeros (o :: t)).length < (o :: t).length := by
  show (popZerosLoop (o :: t).length (o :: t)).length < (o :: t).length
  rw [List.length_cons]
  simp only [popZerosLoop, h, if_pos]
  have h1 := popZerosLoop_length_le t.length (heappop Order.heapLt (o :: t)).2
  have h2 : (heappop Order.heapLt (o :: t)).2.length = t.length := by
    rw [heappop_length]; simp
  omega

theorem popZerosLoop_id_of_pos {h : List Order} (hp : allPos h) (fuel : Nat) :
    popZerosLoop fuel h = h := by
  cases fuel with
  | zero => rfl
  | succ n =>
    match h with
    | [] => rfl
    | o :: t =>
      have : o.remaining_quantity ≠ 0 := by
        have := hp o (by simp)
        omega
      simp only [popZerosLoop, this, if_neg]
      simp

theorem popZeros_cons_pos {hd : Order} {t : List Order}
    (h0 : 0 ≤ hd.remaining_quantity) (ht : allPos t) :
    allPos (popZeros (hd :: t)) := by
  show allPos (popZerosLoop (hd :: t).length (hd :: t))
  rw [List.length_cons]
  by_cases hz : hd.remaining_quantity = 0
  · simp only [popZerosLoop, hz, if_pos]
    have hrest : allPos (heappop Order.heapLt (hd :: t)).2 :=
      heappop_mem_tail Order.heapLt ht
    rw [popZerosLoop_id_of_pos hrest]
    exact hrest
  · simp only [popZerosLoop, hz, if_neg]
    simp only [ite_false]
    intro x hx
    rcases List.mem_cons.mp hx with h | h
    · subst h; omega
    · exact ht x h

theorem popZeros_measure_lt {b0 s0 : Order} (bt st : List Order)
    (h : b0.remaining_quantity = 0 ∨ s0.remaining_quantity = 0) :
    (popZeros (b0 :: bt)).length + (popZeros (s0 :: st)).length
      < (b0 :: bt).length + (s0 :: st).length := by
  rcases h with h | h
  · have h1 := popZeros_cons_zero_length (t := bt) h
    have h2 := popZeros_length_le (s0 :: st)
    omega
  · have h1 := popZeros_length_le (b0 :: bt)
    have h2 := popZeros_cons_zero_length (t := st) h
    omega

theorem canMatch_cons {sym : String} {b0 s0 : Order} {bt st : List Order}
    {m : List (Nat × Order)} :
    OrderBook.canMatch ⟨sym, b0 :: bt, s0 :: st, m⟩ = decide (b0.price ≥ s0.price) := rfl

/-- The fill applied to the two heads zeroes the remaining quantity of the
    side achieving the minimum, so each loop iteration shrinks the book. -/
theorem matchStep_measure (sym : String) (b0 s0 : Order) (bt st : List Order)
    (m : List (Nat × Order)) :
    bookMeasure (OrderBook.removeFilledOrders
      { symbol := sym,
        buy_orders := applyFill b0 (min b0.remaining_quantity s0.remaining_quantity) :: bt,
        sell_orders := applyFill s0 (min b0.remaining_quantity s0.remaining_quantity) :: st,
        order_map := m })
      < (b0 :: bt).length + (s0 :: st).length := by
  simp only [OrderBook.removeFilledOrders, bookMeasure]
  apply popZeros_measure_lt
  rcases min_choice b0.remaining_quantity s0.remaining_quantity with h | h
  · left; rw [applyFill_remaining, h]; omega
  · right; rw [applyFill_remaining, h]; omega

theorem canMatch_nonempty_buy {b : OrderBook} (h : b.canMatch = true) :
    b.buy_orders ≠ [] := by
  obtain ⟨sym, bb, bs, m⟩ := b
  cases bb with
  | nil => simp [OrderBook.canMatch] at h
  | cons x xs => simp

theorem canMatch_nonempty_sell {b : OrderBook} (h : b.canMatch = true) :
    b.sell_orders ≠ [] := by
  obtain ⟨sym, bb, bs, m⟩ := b
  cases bs with
  | nil =>
    cases bb with
    | nil => simp [OrderBook.canMatch] at h
    | cons x xs => simp [OrderBook.canMatch] at h
  | cons x xs => simp

/-- One reduction step of the matching loop when the heads cross. -/
theorem matchLoop_succ_cons (tsT : Rat) (fuel : Nat) (sym : String) (b0 s0 : Order)
    (bt st : List Order) (m : List (Nat × Order)) (ntid : Nat) (trades : List Trade)
    (hcm : OrderBook.canMatch ⟨sym, b0 :: bt, s0 :: st, m⟩ = true) :
    matchLoop tsT (fuel + 1) ⟨sym, b0 :: bt, s0 :: st, m⟩ ntid trades =
      matchLoop tsT fuel
        (OrderBook.removeFilledOrders
          { symbol := sym,
            buy_orders := applyFill b0 (min b0.remaining_quantity s0.remaining_quantity) :: bt,
            sell_orders := applyFill s0 (min b0.remaining_quantity s0.remaining_quantity) :: st,
            order_map := updMap (updMap m b0.order_id
                (applyFill b0 (min b0.remaining_quantity s0.remaining_quantity))) s0.order_id
                (applyFill s0 (min b0.remaining_quantity s0.remaining_quantity)) })
        (ntid + 1)
        (trades ++ [{ trade_id := ntid, buy_order_id := b0.order_id,
                      sell_order_id := s0.order_id, symbol := sym,
                      price := if b0.timestamp < s0.timestamp then b0.price else s0.price,
                      quantity := min b0.remaining_quantity s0.remaining_quantity,
                      timestamp := tsT }]) := by
  simp only [matchLoop, hcm, if_true]

theorem matchLoop_not_canMatch (tsT : Rat) (fuel : Nat) (b : OrderBook) (ntid : Nat)
    (trades : List Trade) (h : b.canMatch = false) :
    matchLoop tsT fuel b ntid trades = (b, trades, ntid) := by
  cases fuel with
  | zero => rfl
  | succ n => simp only [matchLoop, h, Bool.false_eq_true, if_false]

theorem matchLoop_canMatch (tsT : Rat) :
    ∀ fuel b ntid trades, bookMeasure b ≤ fuel →
      ((matchLoop tsT fuel b ntid trades).1).canMatch = false := by
  intro fuel
  induction fuel with
  | zero =>
    intro b ntid trades hm
    obtain ⟨sym, bb, bs, m⟩ := b
    simp only [bookMeasure] at hm
    have hbb : bb = [] := List.length_eq_zero.mp (by omega)
    subst hbb
    simp [matchLoop, OrderBook.canMatch]
  | succ n ih =>
    intro b ntid trades hm
    by_cases hcm : b.canMatch
    · obtain ⟨sym, bb, bs, m⟩ := b
      rcases bb with _ | ⟨b0, bt⟩
      · simp [OrderBook.canMatch] at hcm
      rcases bs with _ | ⟨s0, st⟩
      · simp [OrderBook.canMatch] at hcm
      rw [matchLoop_succ_cons tsT n sym b0 s0 bt st m ntid trades hcm]
      apply ih
      have hstep := matchStep_measure sym b0 s0 bt st
        (updMap (updMap m b0.order_id
            (applyFill b0 (min b0.remaining_quantity s0.remaining_quantity))) s0.order_id
            (applyFill s0 (min b0.remaining_quantity s0.remaining_quantity)))
      simp only [bookMeasure] at hm hstep ⊢
      simp only [List.length_cons] at hm hstep ⊢
      omega
    · rw [Bool.not_eq_true] at hcm
      rw [matchLoop_not_canMatch _ _ _ _ _ hcm]
      exact hcm

theorem matchLoop_trades_append (tsT : Rat) :
    ∀ fuel b ntid trades, ∃ l, (matchLoop tsT fuel b ntid trades).2.1 = trades ++ l := by
  intro fuel
  induction fuel with
  | zero => intro b ntid trades; exact ⟨[], by simp [matchLoop]⟩
  | succ n ih =>
    intro b ntid trades
    by_cases hcm : b.canMatch
    · obtain ⟨sym, bb, bs, m⟩ := b
      rcases bb with _ | ⟨b0, bt⟩
      · simp [OrderBook.canMatch] at hcm
      rcases bs with _ | ⟨s0, st⟩
      · simp [OrderBook.canMatch] at hcm
      rw [matchLoop_succ_cons tsT n sym b0 s0 bt st m ntid trades hcm]
      obtain ⟨l, hl⟩ := ih _ (ntid + 1)
        (trades ++ [{ trade_id := ntid, buy_order_id := b0.order_id,
                      sell_order_id := s0.order_id, symbol := sym,
                      price := if b0.timestamp < s0.timestamp then b0.price else s0.price,
                      quantity := min b0.remaining_quantity s0.remaining_quantity,
                      timestamp := tsT }])
      exact ⟨_, by rw [hl, List.append_assoc]⟩
    · rw [Bool.not_eq_true] at hcm
      rw [matchLoop_not_canMatch _ _ _ _ _ hcm]
      exact ⟨[], by simp⟩

theorem updMap_keys (m : List (Nat × Order)) (k : Nat) (v : Order) :
    (updMap m k v).map Prod.fst = m.map Prod.fst := by
  induction m with
  | nil => rfl
  | cons p rest ih =>
    simp only [updMap, List.map_cons] at ih ⊢
    split
    · rename_i h
      rw [ih]
      simp [h]
    · rw [ih]

theorem matchLoop_keys (tsT : Rat) :
    ∀ fuel b ntid trades,
      ((matchLoop tsT fuel b ntid trades).1).order_map.map Prod.fst
        = b.order_map.map Prod.fst := by
  intro fuel
  induction fuel with
  | zero => intro b ntid trades; rfl
  | succ n ih =>
    intro b ntid trades
    by_cases hcm : b.canMatch
    · obtain ⟨sym, bb, bs, m⟩ := b
      rcases bb with _ | ⟨b0, bt⟩
      · simp [OrderBook.canMatch] at hcm
      rcases bs with _ | ⟨s0, st⟩
      · simp [OrderBook.canMatch] at hcm
      rw [matchLoop_succ_cons tsT n sym b0 s0 bt st m ntid trades hcm, ih]
      simp only [OrderBook.removeFilledOrders]
      rw [updMap_keys, updMap_keys]
    · rw [Bool.not_eq_true] at hcm
      rw [matchLoop_not_canMatch _ _ _ _ _ hcm]

theorem matchLoop_pos (tsT : Rat) :
    ∀ fuel b ntid trades, allPos b.buy_orders → allPos b.sell_orders →
      (∀ t ∈ trades, 0 < t.quantity) →
      allPos ((matchLoop tsT fuel b ntid trades).1).buy_orders ∧
        allPos ((matchLoop tsT fuel b ntid trades).1).sell_orders ∧
        ∀ t ∈ (matchLoop tsT fuel b ntid trades).2.1, 0 < t.quantity := by
  intro fuel
  induction fuel with
  | zero => intro b ntid trades hb hs htr; exact ⟨hb, hs, htr⟩
  | succ n ih =>
    intro b ntid trades hb hs htr
    by_cases hcm : b.canMatch
    · obtain ⟨sym, bb, bs, m⟩ := b
      rcases bb with _ | ⟨b0, bt⟩
      · simp [OrderBook.canMatch] at hcm
      rcases bs with _ | ⟨s0, st⟩
      · simp [OrderBook.canMatch] at hcm
      rw [matchLoop_succ_cons tsT n sym b0 s0 bt st m ntid trades hcm]
      have hb0 : 0 < b0.remaining_quantity := hb b0 (by simp)
      have hs0 : 0 < s0.remaining_quantity := hs s0 (by simp)
      have htq : 0 < min b0.remaining_quantity s0.remaining_quantity := lt_min hb0 hs0
      apply ih
      · simp only [OrderBook.removeFilledOrders]
        apply popZeros_cons_pos
        · rw [applyFill_remaining]
          have := min_le_left b0.remaining_quantity s0.remaining_quantity
          omega
        · intro x hx; exact hb x (by simp [hx])
      · simp only [OrderBook.removeFilledOrders]
        apply popZeros_cons_pos
        · rw [applyFill_remaining]
          have := min_le_right b0.remaining_quantity s0.remaining_quantity
          omega
        · intro x hx; exact hs x (by simp [hx])
      · intro t ht
        rcases List.mem_append.mp ht with h | h
        · exact htr t h
        · simp at h; subst h; exact htq
    · rw [Bool.not_eq_true] at hcm
      rw [matchLoop_not_canMatch _ _ _ _ _ hcm]
      exact ⟨hb, hs, htr⟩

/-!  Reading a book back after setBook. -/

theorem find_map_upd_self {κ β : Type} [BEq κ] [LawfulBEq κ] (k : κ) (b : β) :
    ∀ l : List (κ × β), l.any (fun p => p.1 == k) = true →
      (l.map fun p => if p.1 == k then (k, b) else p).find? (fun p => p.1 == k)
        = some (k, b) := by
  intro l
  induction l with
  | nil => intro h; simp at h
  | cons p rest ih =>
    intro h
    simp only [List.map_cons]
    by_cases h1 : (p.1 == k) = true
    · rw [if_pos h1]
      simp [List.find?_cons]
    · rw [if_neg h1]
      simp only [List.find?_cons]
      have h1f : (p.1 == k) = false := by
        rw [← Bool.not_eq_true]; exact h1
      simp only [h1f]
      apply ih
      simp only [List.any_cons, h1f, Bool.false_or] at h
      exact h

theorem find_append_single_self {κ β : Type} [BEq κ] [LawfulBEq κ] (k : κ) (b : β) :
    ∀ l : List (κ × β), l.any (fun p => p.1 == k) = false →
      (l ++ [(k, b)]).find? (fun p => p.1 == k) = some (k, b) := by
  intro l
  induction l with
  | nil => simp
  | cons p rest ih =>
    intro h
    simp only [List.any_cons, Bool.or_eq_false_iff] at h
    simp only [List.cons_append, List.find?_cons, h.1]
    exact ih h.2

theorem find_map_upd_other {κ β : Type} [BEq κ] [LawfulBEq κ] (k : κ) (b : β) (k' : κ)
    (h : k' ≠ k) :
    ∀ l : List (κ × β),
      (l.map fun p => if p.1 == k then (k, b) else p).find? (fun p => p.1 == k')
        = l.find? (fun p => p.1 == k') := by
  intro l
  have hss : (k == k') = false := by
    simp only [beq_eq_false_iff_ne, ne_eq]
    exact fun hc => h hc.symm
  induction l with
  | nil => rfl
  | cons p rest ih =>
    simp only [List.map_cons]
    by_cases h1 : (p.1 == k) = true
    · rw [if_pos h1]
      have hp : (p.1 == k') = false := by
        simp only [beq_iff_eq] at h1
        rw [h1]
        exact hss
      simp only [List.find?_cons, hp, hss]
      exact ih
    · rw [if_neg h1]
      simp only [List.find?_cons]
      cases h2 : (p.1 == k') <;> simp only [ih]

theorem find_append_single_other {κ β : Type} [BEq κ] [LawfulBEq κ] (k : κ) (b : β) (k' : κ)
    (h : k' ≠ k) :
    ∀ l : List (κ × β),
      (l ++ [(k, b)]).find? (fun p => p.1 == k')
        = l.find? (fun p => p.1 == k') := by
  intro l
  have hss : (k == k') = false := by
    simp only [beq_eq_false_iff_ne, ne_eq]
    exact fun hc => h hc.symm
  induction l with
  | nil =>
    simp only [List.nil_append, List.find?_cons, hss]
  | cons p rest ih =>
    simp only [List.cons_append, List.find?_cons]
    cases h2 : (p.1 == k') <;> simp only [ih]

theorem find_setBook (books : List (String × OrderBook)) (sym : String) (b : OrderBook)
    (sym' : String) :
    (setBook books sym b).find? (fun p => p.1 == sym')
      = if sym' = sym then some (sym, b) else books.find? (fun p => p.1 == sym') := by
  by_cases h : sym' = sym
  · subst h
    rw [if_pos rfl]
    unfold setBook
    split
    · exact find_map_upd_self sym' b books (by assumption)
    · rename_i ha
      rw [Bool.not_eq_true] at ha
      exact find_append_single_self sym' b books ha
  · rw [if_neg h]
    unfold setBook
    split
    · exact find_map_upd_other sym b sym' h books
    · exact find_append_single_other sym b sym' h books

theorem book_submitOrder (e : MatchingEngine) (user_id : Nat) (symbol side : String)
    (price : Rat) (quantity : Int) (ts tsTrade latency : Rat) (sd : OrderSide)
    (hside : sideOfString side = some sd) (sym' : String) :
    ((e.submitOrder user_id symbol side price quantity ts tsTrade latency).2).book sym'
      = if sym' = symbol then
          some (matchOrders tsTrade
            (((e.book symbol).getD { symbol := symbol }).addOrder
              { order_id := e.next_order_id, user_id := user_id, symbol := symbol,
                side := sd, price := price, quantity := quantity, timestamp := ts })
            e.next_trade_id).1
        else e.book sym' := by
  unfold MatchingEngine.submitOrder
  rw [hside]
  simp only [MatchingEngine.book]
  rw [find_setBook]
  split
  · rfl
  · rfl

theorem submitOrder_invalid_side (e : MatchingEngine) (user_id : Nat) (symbol side : String)
    (price : Rat) (quantity : Int) (ts tsTrade latency : Rat)
    (hside : sideOfString side = none) :
    e.submitOrder user_id symbol side price quantity ts tsTrade latency
      = (Except.error (side ++ " is not a valid OrderSide"), e) := by
  unfold MatchingEngine.submitOrder
  rw [hside]

theorem book_empty (sym : String) : (({} : MatchingEngine)).book sym = none := rfl

theorem matchOrders_canMatch (tsT : Rat) (b : OrderBook) (ntid : Nat) :
    ((matchOrders tsT b ntid).1).canMatch = false :=
  matchLoop_canMatch tsT _ b ntid [] (le_refl _)

/-- Spec invariant 1, per book: the matching loop only stops when the book
    can no longer match. -/
def uncrossedBooks (e : MatchingEngine) : Prop :=
  ∀ sym b, e.book sym = some b → b.canMatch = false

theorem submitOrder_uncrossed (e : MatchingEngine) (u : Nat) (symbol side : String)
    (price : Rat) (q : Int) (ts tsT lat : Rat) (hInv : uncrossedBooks e) :
    uncrossedBooks (e.submitOrder u symbol side price q ts tsT lat).2 := by
  cases hside : sideOfString side with
  | none =>
    rw [submitOrder_invalid_side _ _ _ _ _ _ _ _ _ hside]
    exact hInv
  | some sd =>
    intro sym' b hb
    rw [book_submitOrder e u symbol side price q ts tsT lat sd hside sym'] at hb
    split at hb
    · cases hb
      exact matchOrders_canMatch _ _ _
    · exact hInv sym' b hb

theorem runEngine_foldl_uncrossed :
    ∀ (reqs : List SubmitReq) (e : MatchingEngine), uncrossedBooks e →
      uncrossedBooks (reqs.foldl (fun e r => (e.submitOrder r.user_id r.symbol r.side r.price
        r.quantity r.ts r.tsTrade r.latency).2) e) := by
  intro reqs
  induction reqs with
  | nil => intro e h; exact h
  | cons r rest ih =>
    intro e h
    exact ih _ (submitOrder_uncrossed _ _ _ _ _ _ _ _ _ h)

theorem runEngine_uncrossed (reqs : List SubmitReq) : uncrossedBooks (runEngine reqs) := by
  apply runEngine_foldl_uncrossed
  intro sym b hb
  rw [book_empty] at hb
  cases hb

theorem canMatch_false_elim {b : OrderBook} (h : b.canMatch = false) :
    b.buy_orders = [] ∨ b.sell_orders = [] ∨
      ∃ ob os, b.getBestBuy = some ob ∧ b.getBestSell = some os ∧ ob.price < os.price := by
  obtain ⟨sym, bb, bs, m⟩ := b
  cases bb with
  | nil => exact Or.inl rfl
  | cons b0 bt =>
    cases bs with
    | nil => exact Or.inr (Or.inl rfl)
    | cons s0 st =>
      refine Or.inr (Or.inr ⟨b0, s0, rfl, rfl, ?_⟩)
      have h2 : ¬ b0.price ≥ s0.price := by
        have := of_decide_eq_false (canMatch_cons ▸ h)
        exact this
      exact lt_of_not_le h2

/-!  Positivity invariant for C5. -/

def posEngine (e : MatchingEngine) : Prop :=
  (∀ sym b, e.book sym = some b → allPos b.buy_orders ∧ allPos b.sell_orders) ∧
    (∀ t ∈ e.trades, 0 < t.quantity)

theorem addOrder_keys (b : OrderBook) (o : Order) :
    (b.addOrder o).order_map = b.order_map ++ [(o.order_id, o)] := by
  unfold OrderBook.addOrder
  cases o.side <;> rfl

theorem addOrder_allPos {b : OrderBook} {o : Order} (hb : allPos b.buy_orders)
    (hs : allPos b.sell_orders) (ho : 0 < o.remaining_quantity) :
    allPos (b.addOrder o).buy_orders ∧ allPos (b.addOrder o).sell_orders := by
  unfold OrderBook.addOrder
  cases o.side
  · exact ⟨heappush_mem _ hb ho, hs⟩
  · exact ⟨hb, heappush_mem _ hs ho⟩

theorem submitOrder_pos (e : MatchingEngine) (u : Nat) (symbol side : String)
    (price : Rat) (q : Int) (ts tsT lat : Rat) (hq : 0 < q) (hInv : posEngine e) :
    posEngine (e.submitOrder u symbol side price q ts tsT lat).2 := by
  cases hside : sideOfString side with
  | none =>
    rw [submitOrder_invalid_side _ _ _ _ _ _ _ _ _ hside]
    exact hInv
  | some sd =>
    set order : Order :=
      { order_id := e.next_order_id, user_id := u, symbol := symbol,
        side := sd, price := price, quantity := q, timestamp := ts } with horder
    have hordrem : 0 < order.remaining_quantity := by
      simp only [Order.remaining_quantity, horder]
      omega
    have hbook0 : allPos (((e.book symbol).getD { symbol := symbol }).buy_orders) ∧
        allPos (((e.book symbol).getD { symbol := symbol }).sell_orders) := by
      cases hbk : e.book symbol with
      | none => exact ⟨(by intro x hx; cases hx), (by intro x hx; cases hx)⟩
      | some bk => exact hInv.1 symbol bk hbk
    have hob := addOrder_allPos hbook0.1 hbook0.2 hordrem
    have hml := matchLoop_pos tsT
      ((((e.book symbol).getD { symbol := symbol }).addOrder order).buy_orders.length +
        (((e.book symbol).getD { symbol := symbol }).addOrder order).sell_orders.length)
      (((e.book symbol).getD { symbol := symbol }).addOrder order)
      e.next_trade_id [] hob.1 hob.2 (by intro t ht; cases ht)
    constructor
    · intro sym' b hb
      rw [book_submitOrder e u symbol side price q ts tsT lat sd hside sym'] at hb
      split at hb
      · cases hb
        exact ⟨hml.1, hml.2.1⟩
      · exact hInv.1 sym' b hb
    · unfold MatchingEngine.submitOrder
      rw [hside]
      intro t ht
      simp only [List.mem_append] at ht
      rcases ht with h | h
      · exact hInv.2 t h
      · exact hml.2.2 t h

theorem runEngine_pos (reqs : List SubmitReq) (hq : ∀ r ∈ reqs, 0 < r.quantity) :
    posEngine (runEngine reqs) := by
  suffices haux : ∀ (rs : List SubmitReq) (e : MatchingEngine), (∀ r ∈ rs, 0 < r.quantity) →
      posEngine e → posEngine (rs.foldl (fun e r => (e.submitOrder r.user_id r.symbol r.side
        r.price r.quantity r.ts r.tsTrade r.latency).2) e) by
    apply haux reqs _ hq
    exact ⟨fun sym b hb => (by rw [book_empty] at hb; cases hb), fun t ht => (by cases ht)⟩
  intro rs
  induction rs with
  | nil => intro e _ h; exact h
  | cons r rest ih =>
    intro e hq2 h
    exact ih _ (fun x hx => hq2 x (by simp [hx]))
      (submitOrder_pos _ _ _ _ _ _ _ _ _ (hq2 r (by simp)) h)

/-!
Embedding of src/pnl_calculator.py.

The database handle is an external collaborator (the spec treats the
persistence layer as out of the core); _update_position_in_db only runs
when a trade_id is supplied and never feeds back into the in-memory
positions, so the embedding carries the positions dictionary only.
-/

structure Position where
  user_id : Nat
  symbol : String
  quantity : Int := 0
  avg_cost : Rat := 0
  realized_pnl : Rat := 0
deriving DecidableEq

structure PnLCalculator where
  positions : List ((Nat × String) × Position) := []
deriving DecidableEq

/-- PnLCalculator._get_position: look up (user_id, symbol), inserting a fresh
    flat position on a miss (Python dict insertion appends). -/
def PnLCalculator.getPosition (c : PnLCalculator) (user_id : Nat) (symbol : String) :
    Position × PnLCalculator :=
  match c.positions.find? (fun p => p.1 == (user_id, symbol)) with
  | some p => (p.2, c)
  | none =>
    let pos : Position := { user_id := user_id, symbol := symbol }
    (pos, { positions := c.positions ++ [((user_id, symbol), pos)] })

/-- The position record is mutated in place in Python; the embedding writes
    the updated record back under its key (present after _get_position). -/
def setPosition (c : PnLCalculator) (user_id : Nat) (symbol : String) (pos : Position) :
    PnLCalculator :=
  { positions := c.positions.map fun p =>
      if p.1 == (user_id, symbol) then ((user_id, symbol), pos) else p }

/-- PnLCalculator._process_buy. -/
def processBuy (position : Position) (price : Rat) (quantity : Int) : Position :=
  let old_quantity := position.quantity
  let old_avg_cost := position.avg_cost
  if 0 ≤ old_quantity then
    -- Adding to long position or opening new long
    let total_cost := (old_quantity : Rat) * old_avg_cost + (quantity : Rat) * price
    let new_quantity := old_quantity + quantity
    { position with quantity := new_quantity,
                    avg_cost := if 0 < new_quantity then total_cost / (new_quantity : Rat) else 0 }
  else
    if quantity ≤ |old_quantity| then
      -- Partial or full cover
      let realized_pnl := (quantity : Rat) * (old_avg_cost - price)
      let p := { position with realized_pnl := position.realized_pnl + realized_pnl,
                               quantity := old_quantity + quantity }
      if p.quantity = 0 then { p with avg_cost := 0 } else p
    else
      -- Cover short and go long
      let cover_quantity := |old_quantity|
      let realized_pnl := (cover_quantity : Rat) * (old_avg_cost - price)
      { position with realized_pnl := position.realized_pnl + realized_pnl,
                      quantity := quantity - cover_quantity,
                      avg_cost := price }

/-- PnLCalculator._process_sell. -/
def processSell (position : Position) (price : Rat) (quantity : Int) : Position :=
  let old_quantity := position.quantity
  let old_avg_cost := position.avg_cost
  if old_quantity ≤ 0 then
    -- Adding to short position or opening new short
    let total_cost := (|old_quantity| : Rat) * old_avg_cost + (quantity : Rat) * price
    let new_quantity := old_quantity - quantity
    { position with quantity := new_quantity,
                    avg_cost := if new_quantity ≠ 0 then total_cost / (|new_quantity| : Rat) else 0 }
  else
    if quantity ≤ old_quantity then
      -- Partial or full close
      let realized_pnl := (quantity : Rat) * (price - old_avg_cost)
      let p := { position with realized_pnl := position.realized_pnl + realized_pnl,
                               quantity := old_quantity - quantity }
      if p.quantity = 0 then { p with avg_cost := 0 } else p
    else
      -- Close long and go short
      let close_quantity := old_quantity
      let realized_pnl := (close_quantity : Rat) * (price - old_avg_cost)
      { position with realized_pnl := position.realized_pnl + realized_pnl,
                      quantity := -(quantity - close_quantity),
                      avg_cost := price }

/-- PnLCalculator.process_trade (without the optional database write). -/
def PnLCalculator.processTrade (c : PnLCalculator) (user_id : Nat) (symbol : String)
    (side : String) (price : Rat) (quantity : Int) : PnLCalculator :=
  let r := c.getPosition user_id symbol
  let pos2 :=
    if side = "BUY" then processBuy r.1 price quantity
    else processSell r.1 price quantity
  setPosition r.2 user_id symbol pos2

structure TradeEvent where
  user_id : Nat
  symbol : String
  side : String
  price : Rat
  quantity : Int
deriving DecidableEq

def runPnL (evs : List TradeEvent) : PnLCalculator :=
  evs.foldl (fun c e => c.processTrade e.user_id e.symbol e.side e.price e.quantity) {}

def posQuantity (c : PnLCalculator) (user_id : Nat) (symbol : String) : Int :=
  match c.positions.find? (fun p => p.1 == (user_id, symbol)) with
  | some p => p.2.quantity
  | none => 0

def buyQuantitySum (evs : List TradeEvent) (user_id : Nat) (symbol : String) : Int :=
  ((evs.filter fun e => e.user_id == user_id && e.symbol == symbol && e.side == "BUY").map
    (·.quantity)).sum

def sellQuantitySum (evs : List TradeEvent) (user_id : Nat) (symbol : String) : Int :=
  ((evs.filter fun e => e.user_id == user_id && e.symbol == symbol && e.side == "SELL").map
    (·.quantity)).sum

theorem processBuy_quantity (pos : Position) (price : Rat) (q : Int) :
    (processBuy pos price q).quantity = pos.quantity + q := by
  unfold processBuy
  dsimp only
  split
  · rfl
  · rename_i hneg
    split
    · split <;> rfl
    · dsimp only
      have habs : |pos.quantity| = -pos.quantity := abs_of_neg (by omega)
      rw [habs]
      omega

theorem processSell_quantity (pos : Position) (price : Rat) (q : Int) :
    (processSell pos price q).quantity = pos.quantity - q := by
  unfold processSell
  dsimp only
  split
  · rfl
  · split
    · split <;> rfl
    · dsimp only
      omega

theorem processTrade_posQuantity (c : PnLCalculator) (uid : Nat) (sym : String)
    (side : String) (price : Rat) (q : Int) (uid' : Nat) (sym' : String) :
    posQuantity (c.processTrade uid sym side price q) uid' sym'
      = posQuantity c uid' sym'
        + (if uid' = uid ∧ sym' = sym then (if side = "BUY" then q else -q) else 0) := by
  by_cases hk : uid' = uid ∧ sym' = sym
  · obtain ⟨h1, h2⟩ := hk
    subst h1
    subst h2
    rw [if_pos ⟨rfl, rfl⟩]
    cases hf : c.positions.find? (fun p => p.1 == (uid', sym')) with
    | some pr =>
      have hany : c.positions.any (fun p => p.1 == (uid', sym')) = true := by
        rw [List.any_eq_true]
        exact ⟨pr, List.mem_of_find?_eq_some hf,
          @List.find?_some _ (fun p => p.1 == (uid', sym')) pr c.positions hf⟩
      simp only [PnLCalculator.processTrade, PnLCalculator.getPosition, hf, setPosition,
        posQuantity]
      rw [find_map_upd_self _ _ _ hany]
      by_cases hs : side = "BUY"
      · simp only [hs, if_pos, processBuy_quantity]
      · simp only [if_neg hs, processSell_quantity]
        omega
    | none =>
      simp only [PnLCalculator.processTrade, PnLCalculator.getPosition, hf, setPosition,
        posQuantity]
      have hany : (c.positions ++ [((uid', sym'),
          ({ user_id := uid', symbol := sym' } : Position))]).any
            (fun p => p.1 == (uid', sym')) = true := by
        rw [List.any_eq_true]
        exact ⟨((uid', sym'), { user_id := uid', symbol := sym' }), by simp, by simp⟩
      rw [find_map_upd_self _ _ _ hany]
      by_cases hs : side = "BUY"
      · simp only [hs, if_pos, processBuy_quantity]
      · simp only [if_neg hs, processSell_quantity]
        omega
  · rw [if_neg hk]
    have hk2 : (uid', sym') ≠ (uid, sym) := by
      intro hc
      apply hk
      exact ⟨congrArg Prod.fst hc, congrArg Prod.snd hc⟩
    cases hf : c.positions.find? (fun p => p.1 == (uid, sym)) with
    | some pr =>
      simp only [PnLCalculator.processTrade, PnLCalculator.getPosition, hf, setPosition,
        posQuantity]
      rw [find_map_upd_other _ _ _ hk2]
      omega
    | none =>
      simp only [PnLCalculator.processTrade, PnLCalculator.getPosition, hf, setPosition,
        posQuantity]
      rw [find_map_upd_other _ _ _ hk2, find_append_single_other _ _ _ hk2]
      omega

theorem buyQuantitySum_cons (e : TradeEvent) (evs : List TradeEvent) (uid : Nat) (sym : String) :
    buyQuantitySum (e :: evs) uid sym
      = (if e.user_id = uid ∧ e.symbol = sym ∧ e.side = "BUY" then e.quantity else 0)
        + buyQuantitySum evs uid sym := by
  unfold buyQuantitySum
  rw [List.filter_cons]
  split
  · rename_i hpred
    have h : e.user_id = uid ∧ e.symbol = sym ∧ e.side = "BUY" := by
      simpa [Bool.and_eq_true, beq_iff_eq, and_assoc] using hpred
    rw [if_pos h, List.map_cons, List.sum_cons]
  · rename_i hpred
    have h : ¬(e.user_id = uid ∧ e.symbol = sym ∧ e.side = "BUY") := by
      intro hc
      apply hpred
      simp [Bool.and_eq_true, beq_iff_eq, and_assoc, hc.1, hc.2.1, hc.2.2]
    rw [if_neg h, zero_add]

theorem sellQuantitySum_cons (e : TradeEvent) (evs : List TradeEvent) (uid : Nat) (sym : String) :
    sellQuantitySum (e :: evs) uid sym
      = (if e.user_id = uid ∧ e.symbol = sym ∧ e.side = "SELL" then e.quantity else 0)
        + sellQuantitySum evs uid sym := by
  unfold sellQuantitySum
  rw [List.filter_cons]
  split
  · rename_i hpred
    have h : e.user_id = uid ∧ e.symbol = sym ∧ e.side = "SELL" := by
      simpa [Bool.and_eq_true, beq_iff_eq, and_assoc] using hpred
    rw [if_pos h, List.map_cons, List.sum_cons]
  · rename_i hpred
    have h : ¬(e.user_id = uid ∧ e.symbol = sym ∧ e.side = "SELL") := by
      intro hc
      apply hpred
      simp [Bool.and_eq_true, beq_iff_eq, and_assoc, hc.1, hc.2.1, hc.2.2]
    rw [if_neg h, zero_add]

theorem runPnL_conservation_aux :
    ∀ (evs : List TradeEvent) (c : PnLCalculator) (uid : Nat) (sym : String),
      (∀ e ∈ evs, e.side = "BUY" ∨ e.side = "SELL") →
      posQuantity (evs.foldl (fun c e => c.processTrade e.user_id e.symbol e.side e.price
        e.quantity) c) uid sym
        = posQuantity c uid sym + buyQuantitySum evs uid sym - sellQuantitySum evs uid sym := by
  intro evs
  induction evs with
  | nil =>
    intro c uid sym _
    simp [buyQuantitySum, sellQuantitySum]
  | cons e rest ih =>
    intro c uid sym hsides
    rw [List.foldl_cons, ih _ uid sym (fun x hx => hsides x (List.mem_cons_of_mem e hx)),
        processTrade_posQuantity, buyQuantitySum_cons, sellQuantitySum_cons]
    rcases hsides e (List.mem_cons_self e rest) with hb | hs
    · by_cases hm : uid = e.user_id ∧ sym = e.symbol
      · have h2 : e.user_id = uid ∧ e.symbol = sym ∧ e.side = "BUY" :=
          ⟨hm.1.symm, hm.2.symm, hb⟩
        have h3 : ¬(e.user_id = uid ∧ e.symbol = sym ∧ e.side = "SELL") := by
          rintro ⟨-, -, hc⟩
          rw [hb] at hc
          exact absurd hc (by decide)
        rw [if_pos hm, if_pos hb, if_pos h2, if_neg h3]
        omega
      · have h3 : ¬(e.user_id = uid ∧ e.symbol = sym ∧ e.side = "BUY") :=
          fun hc => hm ⟨hc.1.symm, hc.2.1.symm⟩
        have h4 : ¬(e.user_id = uid ∧ e.symbol = sym ∧ e.side = "SELL") :=
          fun hc => hm ⟨hc.1.symm, hc.2.1.symm⟩
        rw [if_neg hm, if_neg h3, if_neg h4]
        omega
    · by_cases hm : uid = e.user_id ∧ sym = e.symbol
      · have h2 : ¬ e.side = "BUY" := by
          rw [hs]
          decide
        have h3 : ¬(e.user_id = uid ∧ e.symbol = sym ∧ e.side = "BUY") := by
          rintro ⟨-, -, hc⟩
          rw [hs] at hc
          exact absurd hc (by decide)
        have h4 : e.user_id = uid ∧ e.symbol = sym ∧ e.side = "SELL" :=
          ⟨hm.1.symm, hm.2.symm, hs⟩
        rw [if_pos hm, if_neg h2, if_neg h3, if_pos h4]
        omega
      · have h3 : ¬(e.user_id = uid ∧ e.symbol = sym ∧ e.side = "BUY") :=
          fun hc => hm ⟨hc.1.symm, hc.2.1.symm⟩
        have h4 : ¬(e.user_id = uid ∧ e.symbol = sym ∧ e.side = "SELL") :=
          fun hc => hm ⟨hc.1.symm, hc.2.1.symm⟩
        rw [if_neg hm, if_neg h3, if_neg h4]
        omega

/-!
Embedding of src/reconciliation.py.

The database is an external collaborator: the rows that
db.get_trades_by_date returns and the per-id order lookup backing
_get_order are explicit inputs, and the reconciliation_log table is the
carried state.  _log_reconciliation_results wraps its INSERT in
try/except; the success path of the insert is modelled (persistence
failures are outside the core).  Dates are opaque identifiers, modelled
as Nat.  The interpolated values inside discrepancy messages are elided;
no claim depends on message text.  The Reconciler also appends each
discrepancy to an in-memory self.discrepancies list that nothing reads;
it is not carried here.
-/

structure TradeRow where
  trade_id : Nat
  buy_order_id : Nat
  sell_order_id : Nat
  symbol : String
  price : Rat
  quantity : Int
  timestamp : Rat
deriving DecidableEq

structure OrderRow where
  order_id : Nat
  symbol : String
  side : String
  price : Rat
  quantity : Int
  timestamp : Rat
deriving DecidableEq

structure ReconLogRow where
  check_date : Nat
  total_trades : Nat
  matched_trades : Nat
  discrepancies : Nat
  accuracy : Rat
deriving DecidableEq

structure ReconDb where
  reconciliation_log : List ReconLogRow := []
deriving DecidableEq

structure Issue where
  trade_id : Nat
  error : String
  timestamp : Rat
deriving DecidableEq

structure ReconResult where
  check_date : Nat
  total_trades : Nat
  matched_trades : Nat
  discrepancies : Nat
  accuracy : Rat
  issues : List Issue
deriving DecidableEq

/-- Python round(x, 2): round half to even at two decimal places.  The
    claims under scrutiny only exercise it on exactly representable
    values, where the float round agrees with the rational one. -/
def roundHalfEven (x : Rat) : Int :=
  let f := ⌊x⌋
  let frac := x - (f : Rat)
  if frac < 1 / 2 then f
  else if 1 / 2 < frac then f + 1
  else if 2 ∣ f then f else f + 1

def round2 (x : Rat) : Rat :=
  ((roundHalfEven (100 * x) : Int) : Rat) / 100

/-- Reconciler._validate_trade: the six check groups, first failure wins.
    The try/except around the checks guards dictionary access, which the
    typed rows make total. -/
def validateTrade (getOrder : Nat → Option OrderRow) (trade : TradeRow) : Bool × String :=
  match getOrder trade.buy_order_id with
  | none => (false, "Buy order not found")
  | some buy_order =>
    match getOrder trade.sell_order_id with
    | none => (false, "Sell order not found")
    | some sell_order =>
      if buy_order.symbol ≠ trade.symbol then (false, "Buy order symbol mismatch")
      else if sell_order.symbol ≠ trade.symbol then (false, "Sell order symbol mismatch")
      else if buy_order.side ≠ "BUY" then (false, "Buy order has incorrect side")
      else if sell_order.side ≠ "SELL" then (false, "Sell order has incorrect side")
      else if trade.price > buy_order.price then (false, "Trade price exceeds buy price")
      else if trade.price < sell_order.price then (false, "Trade price below sell price")
      else if trade.quantity ≤ 0 then (false, "Invalid trade quantity")
      else if trade.quantity > buy_order.quantity then
        (false, "Trade quantity exceeds buy order quantity")
      else if trade.quantity > sell_order.quantity then
        (false, "Trade quantity exceeds sell order quantity")
      else if trade.timestamp < buy_order.timestamp then
        (false, "Trade timestamp before buy order timestamp")
      else if trade.timestamp < sell_order.timestamp then
        (false, "Trade timestamp before sell order timestamp")
      else (true, "")

/-- Reconciler._log_reconciliation_results: INSERT INTO reconciliation_log. -/
def logReconciliationResults (db : ReconDb) (check_date : Nat)
    (total_trades matched_trades discrepancies : Nat) (accuracy : Rat) : ReconDb :=
  { reconciliation_log := db.reconciliation_log ++
      [{ check_date := check_date, total_trades := total_trades,
         matched_trades := matched_trades, discrepancies := discrepancies,
         accuracy := accuracy }] }

/-- Reconciler.reconcile_trades.  When no trades exist for the date the
    source logs a warning and returns early with accuracy 100.0, without
    touching the log store.  Otherwise it counts matched trades, collects
    issues in order, logs the results, and returns a summary dict whose
    accuracy field is rounded to two decimals (the logged row keeps the
    unrounded value). -/
def reconcileTrades (db : ReconDb) (check_date : Nat) (trades : List TradeRow)
    (getOrder : Nat → Option OrderRow) : ReconResult × ReconDb :=
  let total_trades := trades.length
  if total_trades = 0 then
    ({ check_date := check_date, total_trades := 0, matched_trades := 0,
       discrepancies := 0, accuracy := 100, issues := [] }, db)
  else
    let matched_trades := trades.countP (fun t => (validateTrade getOrder t).1)
    let issues := (trades.filter (fun t => !(validateTrade getOrder t).1)).map
      (fun t => { trade_id := t.trade_id, error := (validateTrade getOrder t).2,
                  timestamp := t.timestamp })
    let discrepancies := total_trades - matched_trades
    let accuracy : Rat :=
      if 0 < total_trades then (matched_trades : Rat) / (total_trades : Rat) * 100 else 0
    let db2 := logReconciliationResults db check_date total_trades matched_trades
      discrepancies accuracy
    ({ check_date := check_date, total_trades := total_trades,
       matched_trades := matched_trades, discrepancies := discrepancies,
       accuracy := round2 accuracy, issues := issues }, db2)

/-- The first trade emitted by a run of the matching loop on a book whose
    heads cross carries exactly the head data: the ids of the two head
    orders, the price of the earlier-arrived head (sell price on a
    timestamp tie), and the minimum of the two remaining quantities. -/
theorem matchOrders_head_trade (tsT : Rat) (sym : String) (b0 s0 : Order)
    (bt st : List Order) (m : List (Nat × Order)) (ntid : Nat)
    (hcm : OrderBook.canMatch ⟨sym, b0 :: bt, s0 :: st, m⟩ = true) :
    (matchOrders tsT ⟨sym, b0 :: bt, s0 :: st, m⟩ ntid).2.1.head?
      = some { trade_id := ntid, buy_order_id := b0.order_id, sell_order_id := s0.order_id,
               symbol := sym,
               price := if b0.timestamp < s0.timestamp then b0.price else s0.price,
               quantity := min b0.remaining_quantity s0.remaining_quantity,
               timestamp := tsT } := by
  show (matchLoop tsT ((b0 :: bt).length + (s0 :: st).length)
      ⟨sym, b0 :: bt, s0 :: st, m⟩ ntid []).2.1.head? = _
  have hfuel : (b0 :: bt).length + (s0 :: st).length = (bt.length + st.length + 1) + 1 := by
    simp [List.length_cons]
    omega
  rw [hfuel, matchLoop_succ_cons tsT _ sym b0 s0 bt st m ntid [] hcm]
  obtain ⟨l, hl⟩ := matchLoop_trades_append tsT (bt.length + st.length + 1) _ (ntid + 1) _
  rw [hl]
  simp

/-!  Claim theorems. -/

/-- Claim C1, counterexample.  Two orders with equal timestamps (time.time()
    can return the same instant twice): BUY 100@150 at t=0, then SELL
    100@149 also at t=0.  The claim says the tie goes to the buy price
    (150.00); the code falls through to the sell price, and the single
    emitted trade executes at 149.00. -/
theorem c1_pricing_counterexample :
    ((runEngine [⟨1, "AAPL", "BUY", 150, 100, 0, 0, 0⟩,
                 ⟨2, "AAPL", "SELL", 149, 100, 0, 0, 0⟩]).trades.map Trade.price = [149]) ∧
      (149 : Rat) ≠ 150 := by
  constructor
  · decide
  · decide

/-- Claim C1, amended: in every iteration of the matching loop the trade
    price is the price of whichever head order has the strictly lower
    timestamp, and when the two timestamps are equal the trade executes at
    the SELL price (the source comparison is strict, so equality falls
    through to sell_order.price). -/
theorem c1_pricing_amended (tsT : Rat) (b : OrderBook) (ntid : Nat) (b0 s0 : Order)
    (bt st : List Order) (hb : b.buy_orders = b0 :: bt) (hs : b.sell_orders = s0 :: st)
    (hcm : b.canMatch = true) :
    (matchOrders tsT b ntid).2.1.head?.map Trade.price
      = some (if b0.timestamp < s0.timestamp then b0.price else s0.price) := by
  obtain ⟨sym, bb, bs, m⟩ := b
  dsimp only at hb hs
  subst hb
  subst hs
  rw [matchOrders_head_trade tsT sym b0 s0 bt st m ntid hcm]
  rfl

/-- Witness for c1_pricing_amended: a buy that arrived strictly earlier
    (t=0 against t=1) trades at the buy price 150. -/
theorem c1_pricing_amended_witness :
    (matchOrders 0 ⟨"A", [⟨1, 1, "A", OrderSide.BUY, 150, 100, 0, OrderStatus.PENDING, 0⟩],
        [⟨2, 2, "A", OrderSide.SELL, 149, 100, 1, OrderStatus.PENDING, 0⟩], []⟩ 1).2.1.head?.map
        Trade.price = some 150 := by
  have h := c1_pricing_amended 0
    ⟨"A", [⟨1, 1, "A", OrderSide.BUY, 150, 100, 0, OrderStatus.PENDING, 0⟩],
      [⟨2, 2, "A", OrderSide.SELL, 149, 100, 1, OrderStatus.PENDING, 0⟩], []⟩ 1
    ⟨1, 1, "A", OrderSide.BUY, 150, 100, 0, OrderStatus.PENDING, 0⟩
    ⟨2, 2, "A", OrderSide.SELL, 149, 100, 1, OrderStatus.PENDING, 0⟩ [] [] rfl rfl (by decide)
  rw [if_pos (by norm_num)] at h
  exact h

/-- Claim C2, counterexample.  submit_order performs no price or quantity
    validation: a BUY with price -1 (non-positive) and quantity 5 is
    accepted (the order is returned, no error) and is recorded in the AAPL
    order book index. -/
theorem c2_validation_counterexample :
    ((-1 : Rat) ≤ 0) ∧
      (({} : MatchingEngine).submitOrder 1 "AAPL" "BUY" (-1) 5 0 0 0).1
        = Except.ok { order_id := 1, user_id := 1, symbol := "AAPL", side := OrderSide.BUY,
                      price := -1, quantity := 5, timestamp := 0 } ∧
      ((({} : MatchingEngine).submitOrder 1 "AAPL" "BUY" (-1) 5 0 0 0).2.book "AAPL").map
        (fun b => b.order_map.map Prod.fst) = some [1] := by
  refine ⟨by norm_num, ?_, ?_⟩
  · rfl
  · rfl

/-- Claim C2, amended: submit_order applies no validation to price or
    quantity.  Any submission whose side string parses (BUY or SELL) is
    accepted whatever its price and quantity, including non-positive ones:
    the call returns the created order and the order is added to the
    symbol's book (its id is indexed in order_map). -/
theorem c2_validation_amended (e : MatchingEngine) (u : Nat) (symbol side : String)
    (price : Rat) (q : Int) (ts tsT lat : Rat) (sd : OrderSide)
    (hside : sideOfString side = some sd) :
    (e.submitOrder u symbol side price q ts tsT lat).1
        = Except.ok { order_id := e.next_order_id, user_id := u, symbol := symbol, side := sd,
                      price := price, quantity := q, timestamp := ts } ∧
      ∃ bk, ((e.submitOrder u symbol side price q ts tsT lat).2).book symbol = some bk ∧
        e.next_order_id ∈ bk.order_map.map Prod.fst := by
  constructor
  · unfold MatchingEngine.submitOrder
    rw [hside]
  · rw [book_submitOrder e u symbol side price q ts tsT lat sd hside symbol, if_pos rfl]
    refine ⟨_, rfl, ?_⟩
    simp only [matchOrders]
    rw [matchLoop_keys tsT _ _ e.next_trade_id, addOrder_keys]
    simp

/-- Witness for c2_validation_amended at a concrete input with price -1 and
    quantity 0, both invalid per the claim, on side BUY. -/
theorem c2_validation_amended_witness :
    (({} : MatchingEngine).submitOrder 1 "A" "BUY" (-1) 0 0 0 0).1
        = Except.ok { order_id := 1, user_id := 1, symbol := "A", side := OrderSide.BUY,
                      price := -1, quantity := 0, timestamp := 0 } ∧
      ∃ bk, ((({} : MatchingEngine).submitOrder 1 "A" "BUY" (-1) 0 0 0 0).2).book "A"
          = some bk ∧ 1 ∈ bk.order_map.map Prod.fst :=
  c2_validation_amended {} 1 "A" "BUY" (-1) 0 0 0 0 OrderSide.BUY rfl

/-- Claim C3, counterexample.  A reconciliation run for a date with zero
    trades returns the accuracy-100 summary but writes nothing to the
    reconciliation log: the source returns early before
    _log_reconciliation_results. -/
theorem c3_audit_counterexample :
    (reconcileTrades {} 7 [] (fun _ => none)).2.reconciliation_log = ([] : List ReconLogRow) ∧
      (reconcileTrades {} 7 [] (fun _ => none)).1.accuracy = 100 :=
  ⟨rfl, rfl⟩

/-- Claim C3, amended: every reconcile_trades call for a date with at least
    one trade appends exactly one record (check_date, total_trades,
    matched_trades, discrepancies, accuracy) to the reconciliation audit
    store before returning; a call with zero trades returns accuracy 100.0
    without persisting anything. -/
theorem c3_audit_amended (db : ReconDb) (d : Nat) (trades : List TradeRow)
    (getOrder : Nat → Option OrderRow) (h : trades ≠ []) :
    (reconcileTrades db d trades getOrder).2.reconciliation_log
      = db.reconciliation_log ++
        [{ check_date := d, total_trades := trades.length,
           matched_trades := trades.countP (fun t => (validateTrade getOrder t).1),
           discrepancies :=
             trades.length - trades.countP (fun t => (validateTrade getOrder t).1),
           accuracy := ((trades.countP (fun t => (validateTrade getOrder t).1) : Rat)
             / (trades.length : Rat)) * 100 }] := by
  unfold reconcileTrades
  have hlen : trades.length ≠ 0 := fun hc => h (List.length_eq_zero.mp hc)
  rw [if_neg hlen]
  simp only [logReconciliationResults]
  rw [if_pos (Nat.pos_of_ne_zero hlen)]

/-- Witness for c3_audit_amended: one trade whose orders cannot be looked
    up; the run appends the log row (7, 1, 0, 1, 0). -/
theorem c3_audit_amended_witness :
    (reconcileTrades {} 7 [⟨1, 1, 2, "A", 10, 5, 0⟩] (fun _ => none)).2.reconciliation_log
      = [⟨7, 1, 0, 1, 0⟩] := by
  have h := c3_audit_amended {} 7 [⟨1, 1, 2, "A", 10, 5, 0⟩] (fun _ => none) (by simp)
  rw [h]
  norm_num [validateTrade, List.countP_cons]

/-- Claim C4, evaluation at the failing input.  Book: resting BUYs at
    100 and 99, resting SELL at 150 (no crosses).  The claim says the
    snapshot's buy levels are the best-priced buys first (100 then 99) and
    the spread is best sell minus best buy (150 - 100 = 50).  The code
    applies reverse=True on top of Order.__lt__, which already inverts the
    price order for buys, so the snapshot lists the WORST buys first
    (99 then 100) and reports spread 150 - 99 = 51. -/
theorem c4_snapshot_failing_input :
    ((runEngine [⟨1, "A", "BUY", 100, 5, 0, 0, 0⟩, ⟨2, "A", "BUY", 99, 5, 1, 0, 0⟩,
        ⟨3, "A", "SELL", 150, 5, 2, 0, 0⟩]).getOrderBookSnapshot "A").buy_orders.map
        SnapshotLevel.price = [99, 100] ∧
      ((runEngine [⟨1, "A", "BUY", 100, 5, 0, 0, 0⟩, ⟨2, "A", "BUY", 99, 5, 1, 0, 0⟩,
        ⟨3, "A", "SELL", 150, 5, 2, 0, 0⟩]).getOrderBookSnapshot "A").sell_orders.map
        SnapshotLevel.price = [150] ∧
      ((runEngine [⟨1, "A", "BUY", 100, 5, 0, 0, 0⟩, ⟨2, "A", "BUY", 99, 5, 1, 0, 0⟩,
        ⟨3, "A", "SELL", 150, 5, 2, 0, 0⟩]).getOrderBookSnapshot "A").spread
        = some ((150 : Rat) - 99) ∧
      ((150 : Rat) - 99 = 51 ∧ (51 : Rat) ≠ 50 ∧ (99 : Rat) < 100) := by
  refine ⟨rfl, rfl, rfl, by norm_num⟩

/-- Claim C5, counterexample.  Since submit_order does not validate
    quantity, a SELL with quantity 0 at a crossing price matches against a
    resting BUY and the engine emits a trade with quantity
    min(5, 0) = 0, violating the strict positivity stated by the claim. -/
theorem c5_trade_quantity_counterexample :
    ((runEngine [⟨1, "A", "BUY", 10, 5, 0, 0, 0⟩,
        ⟨2, "A", "SELL", 5, 0, 1, 0, 0⟩]).trades.map Trade.quantity = [0]) ∧
      ¬ (∀ t ∈ (runEngine [⟨1, "A", "BUY", 10, 5, 0, 0, 0⟩,
          ⟨2, "A", "SELL", 5, 0, 1, 0, 0⟩]).trades, 0 < t.quantity) := by
  constructor
  · rfl
  · decide

/-- Claim C5, amended: provided every submission carries a strictly
    positive quantity, every trade the engine emits has strictly positive
    quantity; and in every iteration of the matching loop the emitted trade
    quantity equals the minimum of the two head orders' remaining
    quantities at match time. -/
theorem c5_trade_quantity_amended (reqs : List SubmitReq)
    (hq : ∀ r ∈ reqs, 0 < r.quantity) :
    (∀ t ∈ (runEngine reqs).trades, 0 < t.quantity) ∧
      ∀ (tsT : Rat) (b : OrderBook) (ntid : Nat) (b0 s0 : Order) (bt st : List Order),
        b.buy_orders = b0 :: bt → b.sell_orders = s0 :: st → b.canMatch = true →
        (matchOrders tsT b ntid).2.1.head?.map Trade.quantity
          = some (min b0.remaining_quantity s0.remaining_quantity) := by
  constructor
  · exact (runEngine_pos reqs hq).2
  · intro tsT b ntid b0 s0 bt st hb hs hcm
    obtain ⟨sym, bb, bs, m⟩ := b
    dsimp only at hb hs
    subst hb
    subst hs
    rw [matchOrders_head_trade tsT sym b0 s0 bt st m ntid hcm]
    rfl

/-- Witness for c5_trade_quantity_amended: a fully crossing pair of
    positive-quantity orders; the emitted trade has quantity 5 > 0. -/
theorem c5_trade_quantity_amended_witness :
    0 < (5 : Int) ∧ ∀ t ∈ (runEngine [⟨1, "A", "BUY", 10, 5, 0, 0, 0⟩,
        ⟨2, "A", "SELL", 5, 5, 1, 0, 0⟩]).trades, 0 < t.quantity :=
  ⟨by decide, (c5_trade_quantity_amended [⟨1, "A", "BUY", 10, 5, 0, 0, 0⟩,
      ⟨2, "A", "SELL", 5, 5, 1, 0, 0⟩] (by decide)).1⟩

/-- Claim C6: after any sequence of submissions completes, every symbol's
    book either has an empty side or its best buy price is strictly below
    its best sell price (the book is never left crossed at rest). -/
theorem c6_no_crossed_book (reqs : List SubmitReq) (sym : String) (b : OrderBook)
    (hb : (runEngine reqs).book sym = some b) :
    b.buy_orders = [] ∨ b.sell_orders = [] ∨
      ∃ ob os, b.getBestBuy = some ob ∧ b.getBestSell = some os ∧ ob.price < os.price :=
  canMatch_false_elim (runEngine_uncrossed reqs sym b hb)

/-- Witness for c6_no_crossed_book: the scenario-C book (BUY 100, SELL 150,
    no cross) is uncrossed. -/
theorem c6_no_crossed_book_witness :
    (⟨"A", [⟨1, 1, "A", OrderSide.BUY, 100, 5, 0, OrderStatus.PENDING, 0⟩],
       [⟨2, 2, "A", OrderSide.SELL, 150, 5, 1, OrderStatus.PENDING, 0⟩],
       [(1, ⟨1, 1, "A", OrderSide.BUY, 100, 5, 0, OrderStatus.PENDING, 0⟩),
        (2, ⟨2, 2, "A", OrderSide.SELL, 150, 5, 1, OrderStatus.PENDING, 0⟩)]⟩ :
        OrderBook).buy_orders = [] ∨
      (⟨"A", [⟨1, 1, "A", OrderSide.BUY, 100, 5, 0, OrderStatus.PENDING, 0⟩],
         [⟨2, 2, "A", OrderSide.SELL, 150, 5, 1, OrderStatus.PENDING, 0⟩],
         [(1, ⟨1, 1, "A", OrderSide.BUY, 100, 5, 0, OrderStatus.PENDING, 0⟩),
          (2, ⟨2, 2, "A", OrderSide.SELL, 150, 5, 1, OrderStatus.PENDING, 0⟩)]⟩ :
          OrderBook).sell_orders = [] ∨
      ∃ ob os,
        (⟨"A", [⟨1, 1, "A", OrderSide.BUY, 100, 5, 0, OrderStatus.PENDING, 0⟩],
           [⟨2, 2, "A", OrderSide.SELL, 150, 5, 1, OrderStatus.PENDING, 0⟩],
           [(1, ⟨1, 1, "A", OrderSide.BUY, 100, 5, 0, OrderStatus.PENDING, 0⟩),
            (2, ⟨2, 2, "A", OrderSide.SELL, 150, 5, 1, OrderStatus.PENDING, 0⟩)]⟩ :
            OrderBook).getBestBuy = some ob ∧
          (⟨"A", [⟨1, 1, "A", OrderSide.BUY, 100, 5, 0, OrderStatus.PENDING, 0⟩],
             [⟨2, 2, "A", OrderSide.SELL, 150, 5, 1, OrderStatus.PENDING, 0⟩],
             [(1, ⟨1, 1, "A", OrderSide.BUY, 100, 5, 0, OrderStatus.PENDING, 0⟩),
              (2, ⟨2, 2, "A", OrderSide.SELL, 150, 5, 1, OrderStatus.PENDING, 0⟩)]⟩ :
              OrderBook).getBestSell = some os ∧ ob.price < os.price :=
  c6_no_crossed_book
    [⟨1, "A", "BUY", 100, 5, 0, 0, 0⟩, ⟨2, "A", "SELL", 150, 5, 1, 0, 0⟩] "A" _ (by decide)

/-- Claim C7: selling q > old_qty out of a long position of old_qty > 0
    flips it to short: realized_pnl increases by old_qty * (p - old_avg),
    the new quantity is -(q - old_qty), and the new avg_cost is p; and in
    Scenario G (BUY 10@100 then SELL 15@110 through process_trade) the
    position ends with realized_pnl 100, quantity -5, avg_cost 110. -/
theorem c7_long_to_short_flip (pos : Position) (price : Rat) (q : Int)
    (h0 : 0 < pos.quantity) (hq : pos.quantity < q) :
    (processSell pos price q
      = { pos with
          realized_pnl := pos.realized_pnl + (pos.quantity : Rat) * (price - pos.avg_cost),
          quantity := -(q - pos.quantity), avg_cost := price }) ∧
      ((runPnL [⟨1, "AAPL", "BUY", 100, 10⟩, ⟨1, "AAPL", "SELL", 110, 15⟩]).positions.find?
          (fun p => p.1 == (1, "AAPL"))).map
          (fun p => (p.2.realized_pnl, p.2.quantity, p.2.avg_cost))
        = some (100, -5, 110) := by
  constructor
  · unfold processSell
    dsimp only
    rw [if_neg (by omega), if_neg (by omega)]
  · norm_num [runPnL, PnLCalculator.processTrade, PnLCalculator.getPosition, setPosition,
      processBuy, processSell, List.find?]
    simp only [if_neg (show ¬("SELL" = "BUY") from by decide)]
    exact ⟨trivial, trivial, trivial⟩

/-- Witness for c7_long_to_short_flip at the Scenario G numbers: a long of
    10 at avg 100, selling 15 at 110. -/
theorem c7_long_to_short_flip_witness :
    0 < (10 : Int) ∧ processSell ⟨1, "AAPL", 10, 100, 0⟩ 110 15
      = { user_id := 1, symbol := "AAPL", quantity := -(15 - 10),
          avg_cost := 110, realized_pnl := 0 + ((10 : Int) : Rat) * (110 - 100) } :=
  ⟨by decide, (c7_long_to_short_flip ⟨1, "AAPL", 10, 100, 0⟩ 110 15 (by decide) (by decide)).1⟩

/-- Claim C8: for any event sequence whose sides are all BUY or SELL, the
    resulting position quantity for each (user, symbol) equals the sum of
    that key's BUY quantities minus the sum of its SELL quantities. -/
theorem c8_position_conservation (evs : List TradeEvent) (uid : Nat) (sym : String)
    (hsides : ∀ e ∈ evs, e.side = "BUY" ∨ e.side = "SELL") :
    posQuantity (runPnL evs) uid sym
      = buyQuantitySum evs uid sym - sellQuantitySum evs uid sym := by
  have h := runPnL_conservation_aux evs {} uid sym hsides
  have h0 : posQuantity {} uid sym = 0 := rfl
  rw [h0, zero_add] at h
  exact h

/-- Witness for c8_position_conservation: BUY 10 then SELL 3 leaves
    quantity 10 - 3. -/
theorem c8_position_conservation_witness :
    posQuantity (runPnL [⟨1, "A", "BUY", 100, 10⟩, ⟨1, "A", "SELL", 90, 3⟩]) 1 "A"
      = buyQuantitySum [⟨1, "A", "BUY", 100, 10⟩, ⟨1, "A", "SELL", 90, 3⟩] 1 "A"
        - sellQuantitySum [⟨1, "A", "BUY", 100, 10⟩, ⟨1, "A", "SELL", 90, 3⟩] 1 "A" :=
  c8_position_conservation [⟨1, "A", "BUY", 100, 10⟩, ⟨1, "A", "SELL", 90, 3⟩] 1 "A"
    (by decide)

/-- Claim C9: process_trade routes every side string other than the exact
    string BUY through the sell branch; processing with any such side is
    identical to processing with SELL, with no rejection. -/
theorem c9_non_buy_is_sell (c : PnLCalculator) (uid : Nat) (sym side : String)
    (price : Rat) (q : Int) (h : side ≠ "BUY") :
    c.processTrade uid sym side price q = c.processTrade uid sym "SELL" price q := by
  unfold PnLCalculator.processTrade
  dsimp only
  rw [if_neg h, if_neg (by decide)]

/-- Witness for c9_non_buy_is_sell: the lowercase string buy is processed
    as a sell. -/
theorem c9_non_buy_is_sell_witness :
    ({} : PnLCalculator).processTrade 1 "A" "buy" 100 5
      = ({} : PnLCalculator).processTrade 1 "A" "SELL" 100 5 :=
  c9_non_buy_is_sell {} 1 "A" "buy" 100 5 (by decide)

/-- Claim C10: a submit_order call with a side string that is neither BUY
    nor SELL raises inside the Order construction, before any state
    change: the call returns the error and the engine - order-id counter,
    books, trade list, latency and order counters - is exactly the input
    engine. -/
theorem c10_invalid_side_atomic (e : MatchingEngine) (u : Nat) (symbol side : String)
    (price : Rat) (q : Int) (ts tsT lat : Rat) (h1 : side ≠ "BUY") (h2 : side ≠ "SELL") :
    e.submitOrder u symbol side price q ts tsT lat
      = (Except.error (side ++ " is not a valid OrderSide"), e) := by
  apply submitOrder_invalid_side
  unfold sideOfString
  rw [if_neg h1, if_neg h2]

/-- Witness for c10_invalid_side_atomic: side HOLD leaves the fresh engine
    untouched and surfaces the error. -/
theorem c10_invalid_side_atomic_witness :
    ({} : MatchingEngine).submitOrder 1 "A" "HOLD" 1 1 0 0 0
      = (Except.error ("HOLD" ++ " is not a valid OrderSide"), ({} : MatchingEngine)) :=
  c10_invalid_side_atomic {} 1 "A" "HOLD" 1 1 0 0 0 (by decide) (by decide)
